import Mathlib

/-
Verification of the element-deletion program
(src/C++/16 - Vectors/2 -Delete element from vector-array/src/main.cpp).

The program is a class named func with three methods over a raw C array of
ten ints (declared in main as int array[10]) and a member std::vector<int>
named vector1, together with member fields
  int position = 0
  unsigned long long size = 10.

We embed the class shallowly: the member state is a structure, the raw
array is threaded explicitly (it is a parameter of every method in the
source), machine unsigned arithmetic is Nat taken modulo 2 ^ 64, the
int-to-size_t conversion is reduction modulo 2 ^ 64 of the signed value,
and any access outside the bounds of the array or of the vector - which
is undefined behavior in the source language - aborts with the error
value Err.oob.  Loops run for an explicit iteration count equal to the
number of times the source loop would test its condition successfully,
so the embedding follows the source loop step by step.
-/

deriving instance DecidableEq for Except

namespace DelElem

/-- An out-of-bounds array or vector access: undefined behavior in the
source program, modelled as an aborting error. -/
inductive Err where
  | oob : Err
deriving DecidableEq

/-- The member state of class func: the vector, the position field and the
size field (an unsigned long long, so a natural number below 2 ^ 64). -/
structure FuncState where
  vector1 : List Int
  position : Int
  size : Nat
deriving DecidableEq

/-- Modulus of the 64-bit unsigned size field and of size_t. -/
def ullMod : Nat := 2 ^ 64

/-- Conversion of a signed int value to size_t, as in the loop header
for (size_t i = position; ...): reduction modulo 2 ^ 64, so a negative
position becomes a huge unsigned index. -/
def toSizeT (p : Int) : Nat := (p % (2 ^ 64 : Int)).toNat

/-- The capacity of the backing store: main declares int array[10]. -/
def capacity : Nat := 10

/-- The state of a freshly constructed func object: empty vector,
position = 0, size = 10. -/
def initState : FuncState := { vector1 := [], position := 0, size := 10 }

/-- The loop body of del_elem, iterated: starting at index i, repeat
arr[i] = arr[i+1]; vector1[i] = vector1[i+1]; i++ for the given number of
steps, aborting with Err.oob when an accessed index is out of bounds of
the array or of the vector. -/
def shiftLoop (arr vec : List Int) (i : Nat) : Nat → Except Err (List Int × List Int)
  | 0 => .ok (arr, vec)
  | steps + 1 =>
    if i + 1 < arr.length ∧ i + 1 < vec.length then
      shiftLoop (arr.set i (arr.getD (i + 1) 0)) (vec.set i (vec.getD (i + 1) 0)) (i + 1) steps
    else
      .error .oob

/-- Method del_elem: reads the deletion position posInput into the
position field, converts it to size_t, runs the shift loop
for (size_t i = position; i < size - 1; i++) with size - 1 computed in
unsigned 64-bit arithmetic (so size = 0 underflows to 2 ^ 64 - 1), then
decrements size in the same arithmetic. -/
def del_elem (s : FuncState) (arr : List Int) (posInput : Int) :
    Except Err (FuncState × List Int) :=
  let i0 := toSizeT posInput
  let bound := (s.size + (2 ^ 64 - 1)) % 2 ^ 64
  match shiftLoop arr s.vector1 i0 (bound - i0) with
  | .ok (arr2, vec2) => .ok ({ vector1 := vec2, position := posInput, size := bound }, arr2)
  | .error e => .error e

/-- The loop body of input, iterated: for each index i below size, read
the next integer of the source stream into arr[i] and push it onto the
vector, aborting with Err.oob when arr[i] is out of bounds (writing past
the end of the array is undefined behavior) and when the stream is
exhausted. -/
def inputLoop (src arr vec : List Int) (i : Nat) : Nat → Except Err (List Int × List Int)
  | 0 => .ok (arr, vec)
  | steps + 1 =>
    if i < arr.length ∧ i < src.length then
      inputLoop src (arr.set i (src.getD i 0)) (vec ++ [src.getD i 0]) (i + 1) steps
    else
      .error .oob

/-- Method input: reads size integers from the source stream src into the
array and pushes each onto the vector, in order. -/
def input (s : FuncState) (arr src : List Int) : Except Err (FuncState × List Int) :=
  match inputLoop src arr s.vector1 0 s.size with
  | .ok (arr2, vec2) => .ok ({ s with vector1 := vec2 }, arr2)
  | .error e => .error e

/-- The rendering loop of output, iterated: collect xs[i] for i below the
step count, aborting with Err.oob on an out-of-bounds read. -/
def renderLoop (xs : List Int) (i : Nat) : Nat → Except Err (List Int)
  | 0 => .ok []
  | steps + 1 =>
    if i < xs.length then
      match renderLoop xs (i + 1) steps with
      | .ok rest => .ok (xs.getD i 0 :: rest)
      | .error e => .error e
    else
      .error .oob

/-- Method output: renders the first size elements of the array and then
the first size elements of the vector.  The method only reads the member
state, so the embedding returns the state unchanged next to the two
rendered sequences. -/
def output (s : FuncState) (arr : List Int) :
    Except Err ((FuncState × List Int) × (List Int × List Int)) :=
  match renderLoop arr 0 s.size with
  | .ok a =>
    match renderLoop s.vector1 0 s.size with
    | .ok v => .ok ((s, arr), (a, v))
    | .error e => .error e
  | .error e => .error e

/-- n successive calls of del_elem, each at position 0. -/
def delN (s : FuncState) (arr : List Int) : Nat → Except Err (FuncState × List Int)
  | 0 => .ok (s, arr)
  | n + 1 =>
    match del_elem s arr 0 with
    | .ok (s2, arr2) => delN s2 arr2 n
    | .error e => .error e

/-- Pure description of the shift loop on one list: starting at index i,
repeatedly overwrite index i with the value at index i + 1 and advance. -/
def shiftFrom (xs : List Int) (i : Nat) : Nat → List Int
  | 0 => xs
  | steps + 1 => shiftFrom (xs.set i (xs.getD (i + 1) 0)) (i + 1) steps

/-- Pure description of the input loop on the array: overwrite the indices
from i on with the corresponding source values. -/
def writeFrom (src arr : List Int) (i : Nat) : Nat → List Int
  | 0 => arr
  | steps + 1 => writeFrom src (arr.set i (src.getD i 0)) (i + 1) steps

/-- The lockstep property of the two backing stores: the array and the
vector agree on every index below the logical size. -/
def Lockstep (vec arr : List Int) (n : Nat) : Prop :=
  ∀ j, j < n → arr.getD j 0 = vec.getD j 0

instance instDecidableLockstep (vec arr : List Int) (n : Nat) : Decidable (Lockstep vec arr n) :=
  inferInstanceAs (Decidable (∀ j, j < n → arr.getD j 0 = vec.getD j 0))

-- Sanity checks following the scenarios of the specification.

example :
    input initState [0, 0, 0, 0, 0, 0, 0, 0, 0, 0] [5, 3, 8, 1, 9, 2, 7, 4, 6, 0] =
      .ok ({ vector1 := [5, 3, 8, 1, 9, 2, 7, 4, 6, 0], position := 0, size := 10 },
           [5, 3, 8, 1, 9, 2, 7, 4, 6, 0]) := by decide

example :
    del_elem { vector1 := [5, 3, 8, 1, 9, 2, 7, 4, 6, 0], position := 0, size := 10 }
        [5, 3, 8, 1, 9, 2, 7, 4, 6, 0] 3 =
      .ok ({ vector1 := [5, 3, 8, 9, 2, 7, 4, 6, 0, 0], position := 3, size := 9 },
           [5, 3, 8, 9, 2, 7, 4, 6, 0, 0]) := by decide

-- Helper lemmas about list access.

lemma getD_of_lt (xs : List Int) (j : Nat) (h : j < xs.length) : xs.getD j 0 = xs[j] := by
  simp [List.getD_eq_getElem?_getD, List.getElem?_eq_getElem h]

lemma getD_set_self (xs : List Int) (i : Nat) (v : Int) (h : i < xs.length) :
    (xs.set i v).getD i 0 = v := by
  simp [List.getD_eq_getElem?_getD, List.getElem?_set_self h]

lemma getD_set_ne (xs : List Int) (i j : Nat) (v : Int) (h : i ≠ j) :
    (xs.set i v).getD j 0 = xs.getD j 0 := by
  simp [List.getD_eq_getElem?_getD, List.getElem?_set_ne h]

lemma getD_take (xs : List Int) (n j : Nat) (h : j < n) :
    (xs.take n).getD j 0 = xs.getD j 0 := by
  simp [List.getD_eq_getElem?_getD, List.getElem?_take_of_lt h]

-- The shift loop and its pure description.

lemma shiftFrom_length : ∀ (steps i : Nat) (xs : List Int),
    (shiftFrom xs i steps).length = xs.length
  | 0, _, _ => rfl
  | steps + 1, i, xs => by
    rw [shiftFrom, shiftFrom_length steps, List.length_set]

lemma shiftLoop_zero (arr vec : List Int) (i : Nat) :
    shiftLoop arr vec i 0 = .ok (arr, vec) := rfl

lemma shiftLoop_ok : ∀ (steps i : Nat) (arr vec : List Int),
    i + steps < arr.length → i + steps < vec.length →
    shiftLoop arr vec i steps = .ok (shiftFrom arr i steps, shiftFrom vec i steps)
  | 0, _, _, _, _, _ => rfl
  | steps + 1, i, arr, vec, ha, hv => by
    have h1 : i + 1 < arr.length := by omega
    have h2 : i + 1 < vec.length := by omega
    rw [shiftLoop, if_pos ⟨h1, h2⟩, shiftFrom, shiftFrom,
      shiftLoop_ok steps (i + 1) _ _ (by rw [List.length_set]; omega)
        (by rw [List.length_set]; omega)]

lemma shiftFrom_getD : ∀ (steps i : Nat) (xs : List Int), i + steps ≤ xs.length →
    ∀ j, (shiftFrom xs i steps).getD j 0 =
      if i ≤ j ∧ j < i + steps then xs.getD (j + 1) 0 else xs.getD j 0
  | 0, i, xs, _, j => by
    rw [shiftFrom, if_neg]
    omega
  | steps + 1, i, xs, hb, j => by
    rw [shiftFrom, shiftFrom_getD steps (i + 1) _ (by rw [List.length_set]; omega) j]
    by_cases hj1 : i + 1 ≤ j ∧ j < i + 1 + steps
    · rw [if_pos hj1, if_pos (by omega), getD_set_ne _ _ _ _ (by omega)]
    · rw [if_neg hj1]
      by_cases hj2 : j = i
      · subst hj2
        rw [getD_set_self _ _ _ (by omega), if_pos (by omega)]
      · rw [getD_set_ne _ _ _ _ (fun h => hj2 h.symm), if_neg (by omega)]

/-- del_elem at a position that is in the logical range: the shift loop
runs from the position to size - 2 and size is decremented. -/
lemma del_elem_valid (s : FuncState) (arr : List Int) (p : Int)
    (ha : s.size ≤ arr.length) (hv : s.size ≤ s.vector1.length)
    (hcap : s.size ≤ capacity) (hp0 : 0 ≤ p) (hps : p < (s.size : Int)) :
    del_elem s arr p =
      .ok ({ vector1 := shiftFrom s.vector1 p.toNat (s.size - 1 - p.toNat),
             position := p, size := s.size - 1 },
           shiftFrom arr p.toNat (s.size - 1 - p.toNat)) := by
  have hsize : 1 ≤ s.size := by omega
  have hpn : p.toNat < s.size := by omega
  have hlt : p < (2 : Int) ^ 64 := by
    have : (s.size : Int) ≤ ((capacity : Nat) : Int) := by exact_mod_cast hcap
    simp [capacity] at this
    omega
  have hi0 : toSizeT p = p.toNat := by
    rw [toSizeT, Int.emod_eq_of_lt hp0 (by norm_num at hlt ⊢; omega)]
  have hbound : (s.size + (2 ^ 64 - 1)) % 2 ^ 64 = s.size - 1 := by
    have hc : s.size ≤ 10 := hcap
    omega
  rw [del_elem]
  simp only [hi0, hbound]
  rw [shiftLoop_ok (s.size - 1 - p.toNat) p.toNat arr s.vector1 (by omega) (by omega)]

/-- The prefix of logical length n - 1 left by the shift loop is the old
logical prefix with the element at index q erased. -/
lemma shiftFrom_take_eraseIdx (xs : List Int) (n q : Nat) (hq : q < n) (hn : n ≤ xs.length) :
    (shiftFrom xs q (n - 1 - q)).take (n - 1) = (xs.take n).eraseIdx q := by
  have hlen : (shiftFrom xs q (n - 1 - q)).length = xs.length := shiftFrom_length _ _ _
  have hb : q + (n - 1 - q) ≤ xs.length := by omega
  apply List.ext_getElem
  · rw [List.length_take, hlen, List.length_eraseIdx_of_lt (by rw [List.length_take]; omega),
      List.length_take]
    omega
  · intro j hj1 hj2
    rw [List.length_take, hlen] at hj1
    rw [← getD_of_lt _ _ (by rw [List.length_take, hlen]; omega), getD_take _ _ _ (by omega),
      shiftFrom_getD _ _ _ hb]
    by_cases hcase : q ≤ j
    · rw [if_pos (by omega), List.getElem_eraseIdx_of_ge _ _ _ hj2 hcase,
        ← getD_of_lt _ _ (by rw [List.length_take]; omega), getD_take _ _ _ (by omega)]
    · rw [if_neg (by omega), List.getElem_eraseIdx_of_lt _ _ _ hj2 (by omega),
        ← getD_of_lt _ _ (by rw [List.length_take]; omega), getD_take _ _ _ (by omega)]

-- The input loop and its pure description.

lemma writeFrom_length : ∀ (steps i : Nat) (src arr : List Int),
    (writeFrom src arr i steps).length = arr.length
  | 0, _, _, _ => rfl
  | steps + 1, i, src, arr => by
    rw [writeFrom, writeFrom_length steps, List.length_set]

lemma writeFrom_getD : ∀ (steps i : Nat) (src arr : List Int), i + steps ≤ arr.length →
    ∀ j, (writeFrom src arr i steps).getD j 0 =
      if i ≤ j ∧ j < i + steps then src.getD j 0 else arr.getD j 0
  | 0, i, src, arr, _, j => by
    rw [writeFrom, if_neg]
    omega
  | steps + 1, i, src, arr, hb, j => by
    rw [writeFrom, writeFrom_getD steps (i + 1) _ _ (by rw [List.length_set]; omega) j]
    by_cases hj1 : i + 1 ≤ j ∧ j < i + 1 + steps
    · rw [if_pos hj1, if_pos (by omega)]
    · rw [if_neg hj1]
      by_cases hj2 : j = i
      · subst hj2
        rw [getD_set_self _ _ _ (by omega), if_pos (by omega)]
      · rw [getD_set_ne _ _ _ _ (fun h => hj2 h.symm), if_neg (by omega)]

lemma inputLoop_ok : ∀ (steps i : Nat) (src arr vec : List Int),
    i + steps ≤ arr.length → i + steps ≤ src.length →
    inputLoop src arr vec i steps =
      .ok (writeFrom src arr i steps, vec ++ (src.drop i).take steps)
  | 0, _, _, _, vec, _, _ => by
    rw [inputLoop, writeFrom, List.take_zero, List.append_nil]
  | steps + 1, i, src, arr, vec, ha, hs => by
    have h1 : i < arr.length := by omega
    have h2 : i < src.length := by omega
    rw [inputLoop, if_pos ⟨h1, h2⟩, writeFrom,
      inputLoop_ok steps (i + 1) src _ _ (by rw [List.length_set]; omega) (by omega),
      List.drop_eq_getElem_cons h2, List.take_succ_cons, getD_of_lt _ _ h2]
    simp

lemma renderLoop_ok : ∀ (steps i : Nat) (xs : List Int), i + steps ≤ xs.length →
    renderLoop xs i steps = .ok ((xs.drop i).take steps)
  | 0, _, _, _ => by rw [renderLoop, List.take_zero]
  | steps + 1, i, xs, hb => by
    have h1 : i < xs.length := by omega
    rw [renderLoop, if_pos h1, renderLoop_ok steps (i + 1) xs (by omega),
      List.drop_eq_getElem_cons h1, List.take_succ_cons, getD_of_lt _ _ h1]

/-- The array prefix written by the input loop is exactly the source prefix. -/
lemma writeFrom_take (src arr : List Int) (n : Nat) (ha : n ≤ arr.length)
    (hs : n ≤ src.length) : (writeFrom src arr 0 n).take n = src.take n := by
  apply List.ext_getElem
  · rw [List.length_take, List.length_take, writeFrom_length]
    omega
  · intro j hj1 hj2
    rw [List.length_take, writeFrom_length] at hj1
    rw [← getD_of_lt _ _ (by rw [List.length_take, writeFrom_length]; omega),
      getD_take _ _ _ (by omega), writeFrom_getD _ _ _ _ (by omega), if_pos (by omega),
      ← getD_of_lt _ _ (by rw [List.length_take]; omega), getD_take _ _ _ (by omega)]

/-- Method input on a fresh object fills the vector with the first size
source values and overwrites the array prefix with them. -/
lemma input_fresh (s : FuncState) (arr src : List Int) (hfresh : s.vector1 = [])
    (ha : s.size ≤ arr.length) (hs : s.size ≤ src.length) :
    input s arr src =
      .ok ({ s with vector1 := src.take s.size }, writeFrom src arr 0 s.size) := by
  rw [input, hfresh, inputLoop_ok s.size 0 src arr [] (by omega) (by omega),
    List.drop_zero, List.nil_append]

/-- Method output only reads the member state: it returns the state it was
given together with the first size elements of the array and of the vector. -/
lemma output_ok (s : FuncState) (arr : List Int) (ha : s.size ≤ arr.length)
    (hv : s.size ≤ s.vector1.length) :
    output s arr = .ok ((s, arr), (arr.take s.size, s.vector1.take s.size)) := by
  rw [output, renderLoop_ok s.size 0 arr (by omega), renderLoop_ok s.size 0 s.vector1 (by omega),
    List.drop_zero, List.drop_zero]

-- Claim theorems.

/-- C1: for every well-formed sequence state and every position p with
0 <= p < size, del_elem removes exactly the element at index p from the
logical prefix of the array and of the vector: the remaining elements
keep their relative order (the new logical prefix is the old one with
index p erased) and the logical size decreases by exactly 1. -/
theorem removeAt_valid_erases (s : FuncState) (arr : List Int) (p : Int)
    (ha : s.size ≤ arr.length) (hv : s.size ≤ s.vector1.length)
    (hcap : s.size ≤ capacity) (hp0 : 0 ≤ p) (hps : p < (s.size : Int)) :
    ∃ s2 arr2, del_elem s arr p = .ok (s2, arr2) ∧
      s2.size = s.size - 1 ∧
      arr2.take (s.size - 1) = (arr.take s.size).eraseIdx p.toNat ∧
      s2.vector1.take (s.size - 1) = (s.vector1.take s.size).eraseIdx p.toNat := by
  refine ⟨_, _, del_elem_valid s arr p ha hv hcap hp0 hps, rfl, ?_, ?_⟩
  · exact shiftFrom_take_eraseIdx arr s.size p.toNat (by omega) ha
  · exact shiftFrom_take_eraseIdx s.vector1 s.size p.toNat (by omega) hv

/-- Witness for C1: deleting position 3 from the populated scenario
sequence of the specification. -/
theorem removeAt_valid_erases_witness :
    ∃ s2 arr2,
      del_elem { vector1 := [5, 3, 8, 1, 9, 2, 7, 4, 6, 0], position := 0, size := 10 }
          [5, 3, 8, 1, 9, 2, 7, 4, 6, 0] 3 = .ok (s2, arr2) ∧
      s2.size = 10 - 1 ∧
      arr2.take (10 - 1) = (([5, 3, 8, 1, 9, 2, 7, 4, 6, 0] : List Int).take 10).eraseIdx 3 ∧
      s2.vector1.take (10 - 1) =
        (([5, 3, 8, 1, 9, 2, 7, 4, 6, 0] : List Int).take 10).eraseIdx 3 :=
  removeAt_valid_erases
    { vector1 := [5, 3, 8, 1, 9, 2, 7, 4, 6, 0], position := 0, size := 10 }
    [5, 3, 8, 1, 9, 2, 7, 4, 6, 0] 3 (by decide) (by decide) (by decide) (by decide) (by decide)

/-- C7: deleting the last valid element, at position size - 1, performs
zero shifts: the array and the vector are returned unchanged and only the
size field is decremented by 1. -/
theorem removeAt_last_no_shift (s : FuncState) (arr : List Int)
    (h1 : 1 ≤ s.size) (h2 : s.size ≤ capacity) :
    del_elem s arr ((s.size : Int) - 1) =
      .ok ({ vector1 := s.vector1, position := (s.size : Int) - 1, size := s.size - 1 },
           arr) := by
  have hc : s.size ≤ 10 := h2
  have hi0 : toSizeT ((s.size : Int) - 1) = s.size - 1 := by
    rw [toSizeT, Int.emod_eq_of_lt (by omega) (by omega)]
    omega
  have hbound : (s.size + (2 ^ 64 - 1)) % 2 ^ 64 = s.size - 1 := by omega
  rw [del_elem]
  simp only [hi0, hbound, Nat.sub_self, shiftLoop_zero]

/-- Witness for C7: deleting the last element of the nine-element
scenario sequence of the specification. -/
theorem removeAt_last_no_shift_witness :
    del_elem { vector1 := [5, 3, 8, 9, 2, 7, 4, 6, 0, 0], position := 3, size := 9 }
        [5, 3, 8, 9, 2, 7, 4, 6, 0, 0] (((9 : Nat) : Int) - 1) =
      .ok ({ vector1 := [5, 3, 8, 9, 2, 7, 4, 6, 0, 0], position := ((9 : Nat) : Int) - 1,
             size := 9 - 1 },
           [5, 3, 8, 9, 2, 7, 4, 6, 0, 0]) :=
  removeAt_last_no_shift { vector1 := [5, 3, 8, 9, 2, 7, 4, 6, 0, 0], position := 3, size := 9 }
    [5, 3, 8, 9, 2, 7, 4, 6, 0, 0] (by decide) (by decide)

/-- C8: output does not mutate any state and is idempotent: it returns the
member state it was given together with the elements at indices
0 .. size - 1 of the array and of the vector in current order, and calling
it again on what it returned yields the identical result. -/
theorem snapshot_no_mutation_idempotent (s : FuncState) (arr : List Int)
    (ha : s.size ≤ arr.length) (hv : s.size ≤ s.vector1.length) :
    output s arr = .ok ((s, arr), (arr.take s.size, s.vector1.take s.size)) ∧
    (∀ s2 arr2 r, output s arr = .ok ((s2, arr2), r) →
      output s2 arr2 = .ok ((s2, arr2), r)) := by
  have h1 := output_ok s arr ha hv
  refine ⟨h1, ?_⟩
  intro s2 arr2 r h2
  rw [h1] at h2
  injection h2 with h3
  injection h3 with h4 h5
  injection h4 with h6 h7
  subst h6
  subst h7
  subst h5
  exact h1

/-- Witness for C8: a snapshot of the populated scenario sequence of the
specification returns the state unchanged and the ten elements in order. -/
theorem snapshot_no_mutation_idempotent_witness :
    output { vector1 := [5, 3, 8, 1, 9, 2, 7, 4, 6, 0], position := 0, size := 10 }
        [5, 3, 8, 1, 9, 2, 7, 4, 6, 0] =
      .ok (({ vector1 := [5, 3, 8, 1, 9, 2, 7, 4, 6, 0], position := 0, size := 10 },
            [5, 3, 8, 1, 9, 2, 7, 4, 6, 0]),
           (([5, 3, 8, 1, 9, 2, 7, 4, 6, 0] : List Int).take 10,
            ([5, 3, 8, 1, 9, 2, 7, 4, 6, 0] : List Int).take 10)) :=
  (snapshot_no_mutation_idempotent
    { vector1 := [5, 3, 8, 1, 9, 2, 7, 4, 6, 0], position := 0, size := 10 }
    [5, 3, 8, 1, 9, 2, 7, 4, 6, 0] (by decide) (by decide)).left

/-- C4: populating a fresh sequence with size source values and taking a
snapshot immediately afterwards returns exactly the source prefix of
length size, in order, in both backing stores, and the logical size
equals that count. -/
theorem populate_then_snapshot (s : FuncState) (arr src : List Int)
    (hfresh : s.vector1 = []) (ha : s.size ≤ arr.length)
    (hcount : s.size ≤ src.length) (_hcap : s.size ≤ capacity) :
    ∃ s2 arr2, input s arr src = .ok (s2, arr2) ∧ s2.size = s.size ∧
      s2.vector1 = src.take s.size ∧
      output s2 arr2 = .ok ((s2, arr2), (src.take s.size, src.take s.size)) := by
  refine ⟨_, _, input_fresh s arr src hfresh ha hcount, rfl, rfl, ?_⟩
  rw [output_ok _ _ (by rw [writeFrom_length]; exact ha)
    (by show s.size ≤ (src.take s.size).length; rw [List.length_take]; omega)]
  rw [writeFrom_take src arr s.size ha hcount, List.take_take, min_self]

/-- Witness for C4: populating a fresh object with the ten scenario values
and taking a snapshot. -/
theorem populate_then_snapshot_witness :
    ∃ s2 arr2,
      input initState [0, 0, 0, 0, 0, 0, 0, 0, 0, 0] [5, 3, 8, 1, 9, 2, 7, 4, 6, 0] =
        .ok (s2, arr2) ∧ s2.size = 10 ∧
      s2.vector1 = ([5, 3, 8, 1, 9, 2, 7, 4, 6, 0] : List Int).take 10 ∧
      output s2 arr2 = .ok ((s2, arr2),
        (([5, 3, 8, 1, 9, 2, 7, 4, 6, 0] : List Int).take 10,
         ([5, 3, 8, 1, 9, 2, 7, 4, 6, 0] : List Int).take 10)) :=
  populate_then_snapshot initState [0, 0, 0, 0, 0, 0, 0, 0, 0, 0] [5, 3, 8, 1, 9, 2, 7, 4, 6, 0]
    (by decide) (by decide) (by decide) (by decide)

/-- C2: the code performs no range check on the deletion position.  On the
fully populated ten-element sequence, del_elem at the out-of-range
position 10 does not fail: it returns normally, leaves every element of
the array and of the vector unchanged, and silently decrements the size
field to 9 - and likewise del_elem at the negative position -3 returns
normally and decrements the size field.  The specified behavior - fail
with InvalidPosition and mutate nothing - is therefore violated; there is
no error path at all in del_elem. -/
theorem removeAt_out_of_range_not_rejected :
    del_elem { vector1 := [5, 3, 8, 1, 9, 2, 7, 4, 6, 0], position := 0, size := 10 }
        [5, 3, 8, 1, 9, 2, 7, 4, 6, 0] 10 =
      .ok ({ vector1 := [5, 3, 8, 1, 9, 2, 7, 4, 6, 0], position := 10, size := 9 },
           [5, 3, 8, 1, 9, 2, 7, 4, 6, 0]) ∧
    del_elem { vector1 := [5, 3, 8, 1, 9, 2, 7, 4, 6, 0], position := 0, size := 10 }
        [5, 3, 8, 1, 9, 2, 7, 4, 6, 0] (-3) =
      .ok ({ vector1 := [5, 3, 8, 1, 9, 2, 7, 4, 6, 0], position := -3, size := 9 },
           [5, 3, 8, 1, 9, 2, 7, 4, 6, 0]) := by
  constructor
  · decide
  · decide

/-- C3: ten successive deletions at position 0 from the populated
ten-element sequence do succeed and bring the size to 0, but the next
del_elem on the now-empty sequence does not fail with a position error:
the loop bound size - 1 underflows in unsigned arithmetic to 2 ^ 64 - 1,
so the shift loop runs and performs an out-of-bounds access (undefined
behavior) after overwriting the live storage. -/
theorem removal_from_empty_is_oob :
    delN { vector1 := [5, 3, 8, 1, 9, 2, 7, 4, 6, 0], position := 0, size := 10 }
        [5, 3, 8, 1, 9, 2, 7, 4, 6, 0] 10 =
      .ok ({ vector1 := [0, 0, 0, 0, 0, 0, 0, 0, 0, 0], position := 0, size := 0 },
           [0, 0, 0, 0, 0, 0, 0, 0, 0, 0]) ∧
    del_elem { vector1 := [0, 0, 0, 0, 0, 0, 0, 0, 0, 0], position := 0, size := 0 }
        [0, 0, 0, 0, 0, 0, 0, 0, 0, 0] 0 = .error .oob := by
  constructor
  · decide
  · decide

/-- C5: the code performs no capacity check in input.  With the size field
at 11, one more than the capacity 10 of the array, input does not fail
with a capacity error: it writes the first ten source values (partial
population) and then accesses index 10 of the array, out of bounds
(undefined behavior).  No CapacityExceeded path exists in the code. -/
theorem populate_beyond_capacity_is_oob :
    input { vector1 := [], position := 0, size := 11 } [0, 0, 0, 0, 0, 0, 0, 0, 0, 0]
        [1, 2, 3, 4, 5, 6, 7, 8, 9, 10, 11] = .error .oob ∧
    11 > capacity := by
  constructor
  · decide
  · decide

/-- C6: the size invariant 0 <= size <= capacity is not preserved by every
operation.  Ten deletions at position 0 bring the size to 0; one further
del_elem at position -1 converts -1 to the size_t value 2 ^ 64 - 1, so the
shift loop runs zero times, and the unsigned decrement of size underflows
from 0 to 2 ^ 64 - 1, far above the capacity 10. -/
theorem size_invariant_violated_by_underflow :
    delN { vector1 := [5, 3, 8, 1, 9, 2, 7, 4, 6, 0], position := 0, size := 10 }
        [5, 3, 8, 1, 9, 2, 7, 4, 6, 0] 10 =
      .ok ({ vector1 := [0, 0, 0, 0, 0, 0, 0, 0, 0, 0], position := 0, size := 0 },
           [0, 0, 0, 0, 0, 0, 0, 0, 0, 0]) ∧
    del_elem { vector1 := [0, 0, 0, 0, 0, 0, 0, 0, 0, 0], position := 0, size := 0 }
        [0, 0, 0, 0, 0, 0, 0, 0, 0, 0] (-1) =
      .ok ({ vector1 := [0, 0, 0, 0, 0, 0, 0, 0, 0, 0], position := -1,
             size := 18446744073709551615 },
           [0, 0, 0, 0, 0, 0, 0, 0, 0, 0]) ∧
    capacity < 18446744073709551615 := by
  refine ⟨by decide, by decide, by decide⟩

/-- Counterexample to C9 as stated: the silent decrement does not hold for
every position value at every state.  On the empty sequence (size 0,
reached by ten valid deletions) del_elem at position 0 does not return
with the size decremented and the contents untouched: the loop bound
size - 1 underflows to 2 ^ 64 - 1, the shift loop runs and aborts on an
out-of-bounds access. -/
theorem del_elem_every_position_counterexample :
    del_elem { vector1 := [0, 0, 0, 0, 0, 0, 0, 0, 0, 0], position := 0, size := 0 }
        [0, 0, 0, 0, 0, 0, 0, 0, 0, 0] 0 = .error .oob := by decide

/-- C9 amended: on a well-formed non-empty sequence (1 <= size <= capacity),
del_elem with any int position whatsoever returns normally and decrements
the size field by exactly 1, and whenever the position lies outside
0 .. size - 2 (in particular every negative position and every position
at or beyond size - 1) it performs zero element writes: both the array
and the vector are returned unchanged, so an out-of-range position
silently shrinks the logical length instead of being rejected. -/
theorem del_elem_nonempty_any_position (s : FuncState) (arr : List Int) (p : Int)
    (ha : s.size ≤ arr.length) (hv : s.size ≤ s.vector1.length)
    (hcap : s.size ≤ capacity) (hs1 : 1 ≤ s.size)
    (hpl : -(2 ^ 31) ≤ p) (hpu : p < 2 ^ 31) :
    ∃ s2 arr2, del_elem s arr p = .ok (s2, arr2) ∧ s2.size = s.size - 1 ∧
      ((p < 0 ∨ (s.size : Int) - 1 ≤ p) → arr2 = arr ∧ s2.vector1 = s.vector1) := by
  have hc10 : s.size ≤ 10 := hcap
  have hbound : (s.size + (2 ^ 64 - 1)) % 2 ^ 64 = s.size - 1 := by omega
  by_cases hp0 : 0 ≤ p
  · by_cases hpin : p < (s.size : Int) - 1
    · refine ⟨_, _, del_elem_valid s arr p ha hv hcap hp0 (by omega), rfl, ?_⟩
      intro hcase
      exact absurd hcase (by omega)
    · have hi0 : toSizeT p = p.toNat := by
        rw [toSizeT, Int.emod_eq_of_lt hp0 (by omega)]
      have hsteps : s.size - 1 - p.toNat = 0 := by omega
      rw [del_elem]
      simp only [hi0, hbound, hsteps, shiftLoop_zero]
      exact ⟨_, _, rfl, rfl, fun _ => ⟨rfl, rfl⟩⟩
  · have hneg : p < 0 := by omega
    have hi0big : 2 ^ 64 - 2 ^ 31 ≤ toSizeT p := by
      rw [toSizeT]
      have h1 : p % (2 ^ 64 : Int) = p + 2 ^ 64 := by omega
      rw [h1]
      omega
    have hsteps : s.size - 1 - toSizeT p = 0 := by omega
    rw [del_elem]
    simp only [hbound, hsteps, shiftLoop_zero]
    exact ⟨_, _, rfl, rfl, fun _ => ⟨rfl, rfl⟩⟩

/-- Witness for the amended C9: deleting at the negative position -3 on
the populated scenario sequence succeeds, decrements the size to 9 and
leaves both stores untouched. -/
theorem del_elem_nonempty_any_position_witness :
    ∃ s2 arr2,
      del_elem { vector1 := [5, 3, 8, 1, 9, 2, 7, 4, 6, 0], position := 0, size := 10 }
          [5, 3, 8, 1, 9, 2, 7, 4, 6, 0] (-3) = .ok (s2, arr2) ∧
      s2.size = 10 - 1 ∧
      (((-3 : Int) < 0 ∨ ((10 : Nat) : Int) - 1 ≤ -3) →
        arr2 = [5, 3, 8, 1, 9, 2, 7, 4, 6, 0] ∧
        s2.vector1 = [5, 3, 8, 1, 9, 2, 7, 4, 6, 0]) :=
  del_elem_nonempty_any_position
    { vector1 := [5, 3, 8, 1, 9, 2, 7, 4, 6, 0], position := 0, size := 10 }
    [5, 3, 8, 1, 9, 2, 7, 4, 6, 0] (-3)
    (by decide) (by decide) (by decide) (by decide) (by decide) (by decide)

/-- C10: the two backing stores stay in lockstep.  After input on a fresh
object the array and the vector agree on every index below the logical
size, and one del_elem call at an in-range position preserves that
agreement, because every write of the shift loop is applied identically
to both stores. -/
theorem array_vector_lockstep :
    (∀ (s : FuncState) (arr src : List Int) (s2 : FuncState) (arr2 : List Int),
        s.vector1 = [] → s.size ≤ arr.length → s.size ≤ src.length →
        input s arr src = .ok (s2, arr2) → Lockstep s2.vector1 arr2 s2.size) ∧
    (∀ (s : FuncState) (arr : List Int) (p : Int) (s2 : FuncState) (arr2 : List Int),
        s.size ≤ arr.length → s.size ≤ s.vector1.length → s.size ≤ capacity →
        0 ≤ p → p < (s.size : Int) → Lockstep s.vector1 arr s.size →
        del_elem s arr p = .ok (s2, arr2) → Lockstep s2.vector1 arr2 s2.size) := by
  constructor
  · intro s arr src s2 arr2 hfresh ha hs hin
    rw [input_fresh s arr src hfresh ha hs] at hin
    injection hin with h
    injection h with h1 h2
    subst h1
    subst h2
    intro j hj
    have hj2 : j < s.size := hj
    rw [writeFrom_getD s.size 0 src arr (by omega) j, if_pos ⟨Nat.zero_le j, by omega⟩]
    show src.getD j 0 = (src.take s.size).getD j 0
    rw [getD_take src s.size j hj2]
  · intro s arr p s2 arr2 ha hv hcap hp0 hps hlock hdel
    rw [del_elem_valid s arr p ha hv hcap hp0 hps] at hdel
    injection hdel with h
    injection h with h1 h2
    subst h1
    subst h2
    intro j hj
    have hj2 : j < s.size - 1 := hj
    have hq : p.toNat < s.size := by omega
    show (shiftFrom arr p.toNat (s.size - 1 - p.toNat)).getD j 0 =
      (shiftFrom s.vector1 p.toNat (s.size - 1 - p.toNat)).getD j 0
    rw [shiftFrom_getD _ _ _ (by omega) j, shiftFrom_getD _ _ _ (by omega) j]
    by_cases hcase : p.toNat ≤ j ∧ j < p.toNat + (s.size - 1 - p.toNat)
    · rw [if_pos hcase, if_pos hcase]
      exact hlock (j + 1) (by omega)
    · rw [if_neg hcase, if_neg hcase]
      exact hlock j (by omega)

/-- Witness for C10: after deleting position 3 from the populated scenario
sequence, the array and the vector still agree on the nine live indices. -/
theorem array_vector_lockstep_witness :
    Lockstep ([5, 3, 8, 9, 2, 7, 4, 6, 0, 0] : List Int)
      ([5, 3, 8, 9, 2, 7, 4, 6, 0, 0] : List Int) 9 :=
  array_vector_lockstep.right
    { vector1 := [5, 3, 8, 1, 9, 2, 7, 4, 6, 0], position := 0, size := 10 }
    [5, 3, 8, 1, 9, 2, 7, 4, 6, 0] 3
    { vector1 := [5, 3, 8, 9, 2, 7, 4, 6, 0, 0], position := 3, size := 9 }
    [5, 3, 8, 9, 2, 7, 4, 6, 0, 0]
    (by decide) (by decide) (by decide) (by decide) (by decide) (by decide) (by decide)

end DelElem
